import Mathlib

/-!
Verification development for the `brief` letter-processing pipeline.

The Go sources are shallowly embedded as executable Lean definitions:

* `cmd/tex.go` (trimSurroundingEmptyLines, getSingleValue, merge,
  convertMarkup and the two block-marker regexes),
* `parser/brf.go` (CreateBrf and the section-marker regex),
* `markup/markup.go` (NewConverter),
* `address/parser.go` (ReadFromFile's line loop).

Go's run-time panics (out-of-range slice expressions) are modelled by
`Option`-valued functions returning `none`; fallible functions returning
`(T, error)` are modelled with `Except String T`.  Go maps are modelled
either as association lists read through `List.lookup` (so that a later
`cons` shadows an earlier binding, exactly like a map overwrite) or as
total functions, as noted at each definition.  External subprocess
invocation (package `cmdline`, out of scope of the sources) is a
parameter of the embedding: a converter oracle of type
`String → List String → Option String`.
-/

namespace Brief

/-- Character class of Go `unicode.IsSpace` (used by `strings.TrimSpace`):
ASCII whitespace, NEL, NBSP and the Unicode `Zs`/`Zl`/`Zp` spaces. -/
def goIsSpace (c : Char) : Bool :=
  c == ' ' || c == '\t' || c == '\n' || c == '\x0b' || c == '\x0c' || c == '\r' ||
  c == '\u0085' || c == '\u00a0' || c == '\u1680' ||
  ('\u2000' ≤ c && c ≤ '\u200a') ||
  c == '\u2028' || c == '\u2029' || c == '\u202f' || c == '\u205f' || c == '\u3000'

/-- Go `strings.TrimSpace`: remove leading and trailing whitespace runes. -/
def goTrimSpace (s : String) : String :=
  ⟨((s.data.dropWhile goIsSpace).reverse.dropWhile goIsSpace).reverse⟩

/-- A line is blank when `strings.TrimSpace(line) == ""`; this is the test
used by `trimSurroundingEmptyLines` in `cmd/tex.go`. -/
def lineIsBlank (l : String) : Bool :=
  goTrimSpace l == ""

/-- Character class of `\s` in Go's regexp package: `[\t\n\f\r ]`. -/
def reIsSpace (c : Char) : Bool :=
  c == ' ' || c == '\t' || c == '\n' || c == '\x0c' || c == '\r'

/-- Index of the first line with non-whitespace content (`firstNonEmpty`
in the single scan of `trimSurroundingEmptyLines`), if any. -/
def firstNonBlank : List String → Option Nat
  | [] => none
  | l :: rest => if lineIsBlank l then (firstNonBlank rest).map (· + 1) else some 0

/-- Index of the last line with non-whitespace content (`lastNonEmpty`
in the single scan of `trimSurroundingEmptyLines`), if any. -/
def lastNonBlank : List String → Option Nat
  | [] => none
  | l :: rest =>
    match lastNonBlank rest with
    | some j => some (j + 1)
    | none => if lineIsBlank l then none else some 0

/-- The Go slice `xs[a:b]` of a line list (for `0 ≤ a ≤ b ≤ len`). -/
def sliceLines (xs : List String) (a b : Nat) : List String :=
  (xs.drop a).take (b - a)

/-- Embedding of `trimSurroundingEmptyLines` from `cmd/tex.go`: it scans for
the first and last non-blank line and returns `brfLines[firstNonEmpty :
lastNonEmpty+1]`.  When every line is blank both indices stay `-1` and the
Go slice expression `brfLines[-1:0]` panics; the panic is modelled as
`none`. -/
def trimSurroundingEmptyLines (brfLines : List String) : Option (List String) :=
  match firstNonBlank brfLines, lastNonBlank brfLines with
  | some f, some l => some (sliceLines brfLines f (l + 1))
  | _, _ => none

/-- Embedding of `getSingleValue` from `cmd/tex.go`: trim surrounding blank
lines, then require exactly one remaining line and return it trimmed of
whitespace.  The `none` of the trim (an actual Go panic) propagates. -/
def getSingleValue (brfLines : List String) : Option (Except String String) :=
  (trimSurroundingEmptyLines brfLines).map (fun t =>
    if t.length = 0 then .error "No line with content found"
    else if t.length > 1 then .error "More than one line with content found"
    else .ok (goTrimSpace (t.headD "")))

/-- Embedding of `merge` from `cmd/tex.go`, with Go maps modelled as
partial functions: copy `m1`, then overwrite with every entry of `m2`. -/
def merge (m1 m2 : String → Option String) : String → Option String :=
  fun k => match m2 k with
  | some v => some v
  | none => m1 k

/-- The merge performed by `TexCommand.run` (`cmd/tex.go` lines 95-97):
`mergedInput := merge(contentInput, senderInput)`, where `senderInput` is
derived from the address file and `contentInput` from the .brf sections. -/
def mergedInput (contentInput senderInput : String → Option String) : String → Option String :=
  merge contentInput senderInput

/-- A converter resolved by `markup.NewConverter`: the markup type it
handles and the external command used to convert it (`markup/markup.go`). -/
structure Converter where
  markupType : String
  converterCmd : String
deriving DecidableEq

/-- Embedding of Go `strings.ReplaceAll` on character lists for a non-empty
pattern (the only use in the sources is the pattern `"%m"`): replace all
non-overlapping occurrences left to right.  The fuel argument only bounds
the recursion; each step consumes at least one character, so
`s.length + 1` fuel never runs out. -/
def replaceAllCh (pat rep : List Char) : Nat → List Char → List Char
  | 0, s => s
  | fuel + 1, s =>
    match s with
    | [] => []
    | c :: rest =>
      if pat.isPrefixOf (c :: rest) && !pat.isEmpty then
        rep ++ replaceAllCh pat rep fuel ((c :: rest).drop pat.length)
      else
        c :: replaceAllCh pat rep fuel rest

/-- Go `strings.ReplaceAll(s, pat, rep)` for non-empty `pat`. -/
def replaceAll (s pat rep : String) : String :=
  ⟨replaceAllCh pat.data rep.data (s.data.length + 1) s.data⟩

/-- Embedding of `NewConverter` from `markup/markup.go`.  The configured
registry `cfg.MarkupConverters` is a Go `map[string]string`, modelled as a
total function returning `""` for absent keys (Go's zero value): an exact
entry wins, else the wildcard entry `"*"` with `"%m"` substituted by the
markup type, else an error.  (The `if markupType == "markdown"` block after
the three returning branches in the source is unreachable and is not
modelled.) -/
def NewConverter (markupType : String) (markupConverters : String → String) :
    Except String Converter :=
  if markupConverters markupType ≠ "" then
    .ok ⟨markupType, markupConverters markupType⟩
  else if markupConverters "*" ≠ "" then
    .ok ⟨markupType, replaceAll (markupConverters "*") "%m" markupType⟩
  else
    .error ("No converter configured for markupType " ++ markupType ++
      ". Consider installing pandoc.")

/-- Lowercase ASCII letters, the `[a-z]` class of the block-start regex. -/
def isLowerAZ (c : Char) : Bool :=
  'a' ≤ c && c ≤ 'z'

/-- Embedding of `patternMarkupTypeBlockStart` from `cmd/tex.go`
(`^\.([a-z]+)-{2,}\s*$`): a dot, one or more lowercase letters (the
captured markup type), two or more hyphens, optional trailing whitespace. -/
def matchMarkupTypeBlockStart (line : String) : Option String :=
  match line.data with
  | '.' :: rest =>
    let letters := rest.takeWhile isLowerAZ
    let afterLetters := rest.dropWhile isLowerAZ
    let dashes := afterLetters.takeWhile (· == '-')
    let afterDashes := afterLetters.dropWhile (· == '-')
    if letters ≠ [] ∧ 2 ≤ dashes.length ∧ afterDashes.all reIsSpace then
      some ⟨letters⟩
    else none
  | _ => none

/-- Embedding of `patternMarkupTypeBlockEnd` from `cmd/tex.go`
(`^-{2,}\s*$`): two or more hyphens, optional trailing whitespace. -/
def matchMarkupTypeBlockEnd (line : String) : Bool :=
  let dashes := line.data.takeWhile (· == '-')
  let afterDashes := line.data.dropWhile (· == '-')
  decide (2 ≤ dashes.length) && afterDashes.all reIsSpace

/-- The inner scan of `convertMarkup`: the index of the first line at or
after `x` matching the block-end pattern, if any (`blockEnd` stays `-1`
otherwise, modelled as `none`).  Fuel-bounded recursion; each step
advances `x`, so `a.length + 1` fuel never runs out. -/
def findBlockEndFrom (a : List String) : Nat → Nat → Option Nat
  | 0, _ => none
  | fuel + 1, x =>
    if h : x < a.length then
      if matchMarkupTypeBlockEnd (a.get ⟨x, h⟩) then some x
      else findBlockEndFrom a fuel (x + 1)
    else none

/-- Go `strings.Join(a, "\n")`. -/
def joinNL (a : List String) : String :=
  String.intercalate "\n" a

/-- The index-based loop of `convertMarkup` from `cmd/tex.go`, with the
string builder as the accumulator `acc` and the external converter
invocation (`markup.NewConverter` + `Convert`, which shells out) as the
oracle `conv`: `conv t lines = none` models either resolution or
conversion failure for markup type `t`.  On a found block end the Go code
converts `a[i+1 : blockEnd-1]` — panicking (modelled `none`) when
`i+1 > blockEnd-1` — and jumps to `blockEnd`; on conversion failure it
appends `a[i:blockEnd]` rejoined and does not advance `i` past the block;
on a missing block end it appends all of `a[i:]` and likewise only
advances `i` by one.  Fuel-bounded recursion; each step advances `i`, so
`a.length + 1` fuel never runs out. -/
def convertMarkupLoop (conv : String → List String → Option String) (a : List String) :
    Nat → Nat → String → Option String
  | 0, _, acc => some acc
  | fuel + 1, i, acc =>
    if h : i < a.length then
      let s := a.get ⟨i, h⟩
      match matchMarkupTypeBlockStart s with
      | some markupBlockType =>
        match findBlockEndFrom a (a.length + 1) i with
        | some blockEnd =>
          if i + 1 ≤ blockEnd - 1 then
            match conv markupBlockType (sliceLines a (i + 1) (blockEnd - 1)) with
            | some r => convertMarkupLoop conv a fuel (blockEnd + 1) (acc ++ r ++ "\n")
            | none =>
              convertMarkupLoop conv a fuel (i + 1)
                (acc ++ joinNL (sliceLines a i blockEnd) ++ "\n")
          else none
        | none => convertMarkupLoop conv a fuel (i + 1) (acc ++ joinNL (a.drop i) ++ "\n")
      | none => convertMarkupLoop conv a fuel (i + 1) (acc ++ s ++ "\n")
    else some acc

/-- Embedding of `convertMarkup` from `cmd/tex.go`: empty input yields
`""`, a single line is returned as-is, longer inputs run the scanning
loop. -/
def convertMarkup (conv : String → List String → Option String) (a : List String) :
    Option String :=
  match a with
  | [] => some ""
  | [x] => some x
  | _ => convertMarkupLoop conv a (a.length + 1) 0 ""

/-- Uppercase every character of a string. -/
def goToUpper (s : String) : String :=
  ⟨s.data.map Char.toUpper⟩

/-- A converter oracle registered exactly for markup type `md` that
uppercases its input lines (joined with newlines, as `Convert` pipes them
to the external command). -/
def upperMdConverter : String → List String → Option String :=
  fun markupType lines =>
    if markupType = "md" then some (goToUpper (joinNL lines)) else none

/-- Uppercase ASCII letters, the `[A-Z]` class of the section-marker
regex. -/
def isUpperAZ (c : Char) : Bool :=
  'A' ≤ c && c ≤ 'Z'

/-- Embedding of `patternSectionId` from `parser/brf.go` (`^\.([A-Z]+)\s*$`):
a dot, one or more uppercase letters (the captured section name), optional
trailing whitespace. -/
def matchSectionId (line : String) : Option String :=
  match line.data with
  | '.' :: rest =>
    let letters := rest.takeWhile isUpperAZ
    let tail := rest.dropWhile isUpperAZ
    if letters ≠ [] ∧ tail.all reIsSpace then some ⟨letters⟩ else none
  | _ => none

/-- The loop state of `CreateBrf` (`parser/brf.go`): the accumulated
`Sections` map (association list, later `cons` shadows earlier bindings,
exactly like the Go map overwrite) and `currentSection` together with
`currentSectionStart`, `none` before the first marker. -/
structure BrfState where
  sections : List (String × List String)
  cur : Option (String × Nat)

/-- The `for idx, line := range brfLines` loop of `CreateBrf`: on a marker
line close the open section as `brfLines[currentSectionStart+1 : idx]` and
open a new one at `idx`.  The absolute index is carried alongside the
remaining lines (`rest = all.drop idx`). -/
def createBrfLoop (all : List String) : Nat → List String → BrfState → BrfState
  | _, [], st => st
  | idx, line :: rest, st =>
    match matchSectionId line with
    | some name =>
      let sections :=
        match st.cur with
        | some (cs, start) => (cs, sliceLines all (start + 1) idx) :: st.sections
        | none => st.sections
      createBrfLoop all (idx + 1) rest ⟨sections, some (name, idx)⟩
    | none => createBrfLoop all (idx + 1) rest st

/-- Embedding of `CreateBrf` from `parser/brf.go`: run the scan and close
the final open section with `brfLines[currentSectionStart+1:]`.  Only the
`Sections` map is returned (the `Lines` field of the Go struct is the
unchanged input). -/
def CreateBrf (brfLines : List String) : List (String × List String) :=
  let st := createBrfLoop brfLines 0 brfLines ⟨[], none⟩
  match st.cur with
  | some (cs, start) => (cs, brfLines.drop (start + 1)) :: st.sections
  | none => st.sections

/-- The section name declared by the marker line at index `i`, if line `i`
exists and is a marker. -/
def markerName (lines : List String) (i : Nat) : Option String :=
  lines[i]?.bind matchSectionId

/-- The largest index `< n` whose line is a marker named `k`, if any. -/
def lastOccBefore (lines : List String) (k : String) : Nat → Option Nat
  | 0 => none
  | n + 1 => if markerName lines n = some k then some n else lastOccBefore lines k n

/-- The largest index whose line is a marker named `k`, if any. -/
def lastOcc (lines : List String) (k : String) : Option Nat :=
  lastOccBefore lines k lines.length

/-- The smallest marker index `≥ i`, or `lines.length` when there is none.
Fuel-bounded recursion; each step advances `i`, so `lines.length + 1` fuel
never runs out. -/
def nextMarkerFrom (lines : List String) : Nat → Nat → Nat
  | 0, _ => lines.length
  | fuel + 1, i =>
    if i < lines.length then
      if (markerName lines i).isSome then i else nextMarkerFrom lines fuel (i + 1)
    else lines.length

/-- The smallest marker index strictly after `j`, or `lines.length`. -/
def nextMarker (lines : List String) (j : Nat) : Nat :=
  nextMarkerFrom lines (lines.length + 1) (j + 1)

/-- Go `strings.HasPrefix(s, pre)`. -/
def goHasPrefixStr (s pre : String) : Bool :=
  pre.data.isPrefixOf s.data

/-- An address record (`address/parser.go`): a mapping from field name to
the ordered list of its values.  The Go `map[string]parser.BrfLines` is an
association list read through `List.lookup`, a later `cons` shadowing an
earlier binding. -/
structure Address where
  Fields : List (String × List String)
deriving DecidableEq

/-- The loop state of `address.ReadFromFile`: the accumulating
`senderAddresses` map (same association-list convention) and the id of the
currently open record, `none` before the first `address:` line.  In Go
`curAddress` points at a record whose `Fields` map is shared with the map
entry, so mutations through it are modelled as updates of the entry under
the current id. -/
structure AddrState where
  senderAddresses : List (String × Address)
  curAddress : Option String
deriving DecidableEq

/-- Go `strings.SplitN(line, ":", 2)` restricted to its two shapes: `none`
when the line has no colon (one returned part), otherwise the text before
and after the first colon. -/
def splitOnceColon : List Char → Option (List Char × List Char)
  | [] => none
  | c :: rest =>
    if c = ':' then some ([], rest)
    else (splitOnceColon rest).map (fun p => (c :: p.1, p.2))

/-- The skip test of the `ReadFromFile` loop: after trimming, the line is
empty or starts with `#`. -/
def isIgnorableLine (rawLine : String) : Bool :=
  goTrimSpace rawLine == "" || goHasPrefixStr (goTrimSpace rawLine) "#"

/-- One iteration of the `scanner.Scan()` loop of `address.ReadFromFile`:
skip blank and comment lines; an `address:` line opens a fresh record
under its id (overwriting the map entry); otherwise a `key: value` line
appends to the open record's field list, a line without colon or without
an open record is a format error that aborts the whole parse.  Error
messages carry the offending raw line (the file path of the Go messages
has no counterpart in the embedding). -/
def addrStep (st : AddrState) (rawLine : String) : Except String AddrState :=
  let line := goTrimSpace rawLine
  if isIgnorableLine rawLine then .ok st
  else if goHasPrefixStr line "address:" then
    let addressId := goTrimSpace ⟨line.data.drop 8⟩
    .ok ⟨(addressId, ⟨[]⟩) :: st.senderAddresses, some addressId⟩
  else
    match st.curAddress with
    | none => .error ("Invalid address file. content without address: " ++ rawLine)
    | some id =>
      match splitOnceColon line.data with
      | none => .error ("Invalid line in address file: " ++ rawLine)
      | some (k0, v0) =>
        let k := goTrimSpace ⟨k0⟩
        let v := goTrimSpace ⟨v0⟩
        let fields := ((st.senderAddresses.lookup id).map Address.Fields).getD []
        let newFields := (k, ((fields.lookup k).getD []) ++ [v]) :: fields
        .ok ⟨(id, ⟨newFields⟩) :: st.senderAddresses, st.curAddress⟩

/-- The state `address.ReadFromFile` starts from: no records, no open
record. -/
def initialAddrState : AddrState :=
  ⟨[], none⟩

/-- Embedding of `address.ReadFromFile` on an already-read line list: fold
the per-line step over the file, returning the accumulated map or the
first format error. -/
def ReadFromLines (lines : List String) : Except String (List (String × Address)) :=
  (List.foldlM addrStep initialAddrState lines).map AddrState.senderAddresses

/-- Invariant of the `CreateBrf` scan before any marker was seen: no
sections were emitted and no line below the scan position is a marker. -/
def InvNone (all : List String) (idx : Nat) (secs : List (String × List String)) : Prop :=
  secs = [] ∧ ∀ j, j < idx → markerName all j = none

/-- Invariant of the `CreateBrf` scan with an open section: `start` is the
latest marker below the scan position `idx` and declares `name`, and the
emitted sections map each key to the slice after its latest closed marker
up to the following marker. -/
def InvSome (all : List String) (idx : Nat) (secs : List (String × List String))
    (name : String) (start : Nat) : Prop :=
  markerName all start = some name ∧ start < idx ∧
  (∀ j, start < j → j < idx → markerName all j = none) ∧
  (∀ k, secs.lookup k =
    (lastOccBefore all k start).map
      (fun j => sliceLines all (j + 1) (nextMarker all j)))

/-- The combined loop invariant of the `CreateBrf` scan. -/
def InvBrf (all : List String) (idx : Nat) : BrfState → Prop
  | ⟨secs, none⟩ => InvNone all idx secs
  | ⟨secs, some (name, start)⟩ => InvSome all idx secs name start

/-- A content-derived rendering mapping sharing the key `SIGNATURE` with
`senderInput0`, used to exhibit the merge precedence. -/
def contentInput0 : String → Option String :=
  fun k => if k = "SIGNATURE" then some "from content" else none

/-- An address-derived rendering mapping sharing the key `SIGNATURE` with
`contentInput0`, used to exhibit the merge precedence. -/
def senderInput0 : String → Option String :=
  fun k => if k = "SIGNATURE" then some "from address file" else none

end Brief

namespace Brief

/-! Theorems for the trim utilities (claims C3, C4). -/

/-- C3: the claim states that on a line list without any non-whitespace
content `trimSurroundingEmptyLines` returns an empty range.  The code
instead evaluates the slice expression `brfLines[-1:0]`, which panics
(modelled as `none`): on the empty list and on a list of blank lines the
function does not return an empty range but aborts. -/
theorem C3_trim_all_blank_panics :
    trimSurroundingEmptyLines [] = none ∧
    trimSurroundingEmptyLines ["", "  "] = none ∧
    trimSurroundingEmptyLines [] ≠ some [] := by
  decide

/-- A successful result of `firstNonBlank` points at a non-blank line. -/
theorem firstNonBlank_getElem {xs : List String} {f : Nat}
    (h : firstNonBlank xs = some f) :
    ∃ lf, xs[f]? = some lf ∧ lineIsBlank lf = false := by
  induction xs generalizing f with
  | nil => simp [firstNonBlank] at h
  | cons x rest ih =>
    by_cases hb : lineIsBlank x
    · simp [firstNonBlank, hb, Option.map_eq_some'] at h
      obtain ⟨f0, hf0, rfl⟩ := h
      obtain ⟨lf, hl, hnb⟩ := ih hf0
      exact ⟨lf, by simpa using hl, hnb⟩
    · simp [firstNonBlank, hb] at h
      subst h
      exact ⟨x, by simp, by simpa using hb⟩

/-- A successful result of `lastNonBlank` points at a non-blank line. -/
theorem lastNonBlank_getElem {xs : List String} {l : Nat}
    (h : lastNonBlank xs = some l) :
    ∃ ll, xs[l]? = some ll ∧ lineIsBlank ll = false := by
  induction xs generalizing l with
  | nil => simp [lastNonBlank] at h
  | cons x rest ih =>
    cases hr : lastNonBlank rest with
    | some j =>
      simp [lastNonBlank, hr] at h
      subst h
      obtain ⟨ll, hl, hnb⟩ := ih hr
      exact ⟨ll, by simpa using hl, hnb⟩
    | none =>
      simp [lastNonBlank, hr] at h
      by_cases hb : lineIsBlank x
      · simp [hb] at h
      · simp [hb] at h
        subst h
        exact ⟨x, by simp, by simpa using hb⟩

/-- When some line is non-blank, `lastNonBlank` finds one as well. -/
theorem lastNonBlank_isSome_of_first {xs : List String} {f : Nat}
    (h : firstNonBlank xs = some f) : (lastNonBlank xs).isSome := by
  induction xs generalizing f with
  | nil => simp [firstNonBlank] at h
  | cons x rest ih =>
    by_cases hb : lineIsBlank x
    · simp [firstNonBlank, hb, Option.map_eq_some'] at h
      obtain ⟨f0, hf0, rfl⟩ := h
      have := ih hf0
      cases hr : lastNonBlank rest with
      | some j => simp [lastNonBlank, hr]
      | none => rw [hr] at this; simp at this
    · cases hr : lastNonBlank rest with
      | some j => simp [lastNonBlank, hr]
      | none => simp [lastNonBlank, hr, hb]

/-- The first non-blank index is at most the last non-blank index. -/
theorem firstNonBlank_le_last {xs : List String} {f l : Nat}
    (h1 : firstNonBlank xs = some f) (h2 : lastNonBlank xs = some l) : f ≤ l := by
  induction xs generalizing f l with
  | nil => simp [firstNonBlank] at h1
  | cons x rest ih =>
    by_cases hb : lineIsBlank x
    · simp [firstNonBlank, hb, Option.map_eq_some'] at h1
      obtain ⟨f0, hf0, rfl⟩ := h1
      cases hr : lastNonBlank rest with
      | none =>
        have := lastNonBlank_isSome_of_first hf0
        rw [hr] at this; simp at this
      | some j =>
        simp [lastNonBlank, hr] at h2
        subst h2
        have := ih hf0 hr
        omega
    · simp [firstNonBlank, hb] at h1
      omega

/-- A list whose last element is non-blank has `lastNonBlank` at its end. -/
theorem lastNonBlank_of_getLast {ys : List String} {b : String}
    (h : ys.getLast? = some b) (hnb : lineIsBlank b = false) :
    lastNonBlank ys = some (ys.length - 1) := by
  induction ys with
  | nil => simp at h
  | cons x t ih =>
    cases t with
    | nil =>
      simp at h
      subst h
      simp [lastNonBlank, hnb]
    | cons y t2 =>
      rw [List.getLast?_cons_cons] at h
      have hrec := ih h
      have hlen : (y :: t2).length - 1 = t2.length := by simp
      rw [hlen] at hrec
      have hstep : lastNonBlank (x :: y :: t2) =
          match lastNonBlank (y :: t2) with
          | some j => some (j + 1)
          | none => if lineIsBlank x then none else some 0 := rfl
      rw [hstep, hrec]
      simp

/-- A list whose head and last lines are non-blank is a fixed point of the
trimming function. -/
theorem trim_fix {ys : List String} {a b : String}
    (ha : ys.head? = some a) (hna : lineIsBlank a = false)
    (hb : ys.getLast? = some b) (hnb : lineIsBlank b = false) :
    trimSurroundingEmptyLines ys = some ys := by
  cases ys with
  | nil => simp at ha
  | cons x t =>
    have hx : lineIsBlank x = false := by
      have hxa : x = a := by simpa using ha
      rw [hxa]; exact hna
    have hfirst : firstNonBlank (x :: t) = some 0 := by
      simp [firstNonBlank, hx]
    have hlast : lastNonBlank (x :: t) = some ((x :: t).length - 1) :=
      lastNonBlank_of_getLast hb hnb
    rw [trimSurroundingEmptyLines, hfirst, hlast]
    have hlen : (x :: t).length - 1 + 1 - 0 = (x :: t).length := by
      simp
    simp [sliceLines, hlen]

/-- C9: `trimEdges` is idempotent — a second application returns the first
result unchanged (with the panic on all-blank input, modelled `none`,
propagating identically on both sides) — and interior blank lines are
preserved, as on the example `["", "x", "", "y", ""]`. -/
theorem C9_trimEdges_idempotent :
    (∀ x : List String,
      (trimSurroundingEmptyLines x).bind trimSurroundingEmptyLines =
        trimSurroundingEmptyLines x)
    ∧ trimSurroundingEmptyLines ["", "x", "", "y", ""] = some ["x", "", "y"] := by
  constructor
  · intro x
    cases h : trimSurroundingEmptyLines x with
    | none => rfl
    | some y =>
      show trimSurroundingEmptyLines y = some y
      cases hf : firstNonBlank x with
      | none => rw [trimSurroundingEmptyLines, hf] at h; simp at h
      | some f =>
        cases hl : lastNonBlank x with
        | none =>
          rw [trimSurroundingEmptyLines, hf, hl] at h
          simp at h
        | some l =>
          rw [trimSurroundingEmptyLines, hf, hl] at h
          simp at h
          obtain ⟨lf, hlf, hnf⟩ := firstNonBlank_getElem hf
          obtain ⟨ll, hll, hnl⟩ := lastNonBlank_getElem hl
          have hfl : f ≤ l := firstNonBlank_le_last hf hl
          have hlen : l < x.length := (List.getElem?_eq_some.mp hll).1
          have hhead : y.head? = some lf := by
            rw [← h]
            rw [sliceLines, List.head?_take, List.head?_drop]
            have : l + 1 - f ≠ 0 := by omega
            simp [this, hlf]
          have hlast : y.getLast? = some ll := by
            rw [← h]
            rw [sliceLines, List.getLast?_take]
            have h0 : l + 1 - f ≠ 0 := by omega
            have h1 : (List.drop f x)[l + 1 - f - 1]? = some ll := by
              rw [List.getElem?_drop]
              have : f + (l + 1 - f - 1) = l := by omega
              rw [this, hll]
            simp [h0, h1]
          exact trim_fix hhead hnf hlast hnl
  · decide

/-- C4: the claim states `getSingleValue` errors on zero remaining lines (in
particular on `[]`), errors on more than one line, and otherwise returns the
single line trimmed.  The one-line and many-line behaviours hold, but on the
empty list the function panics inside `trimSurroundingEmptyLines`
(modelled `none`) instead of returning the "no content" error. -/
theorem C4_getSingleValue_eval :
    getSingleValue ["", " hello ", ""] = some (.ok "hello") ∧
    getSingleValue ["a", "b"] = some (.error "More than one line with content found") ∧
    getSingleValue [] = none ∧
    (∀ e : String, getSingleValue [] ≠ some (.error e)) := by
  refine ⟨by rfl, by rfl, by rfl, ?_⟩
  intro e h
  simp [getSingleValue, trimSurroundingEmptyLines, firstNonBlank, lastNonBlank] at h

/-! Theorems for the rendering-context merge (claim C2). -/

/-- C2 counterexample: `TexCommand.run` computes
`merge(contentInput, senderInput)`, and `merge` lets its second argument
win, so for the shared key `SIGNATURE` the final rendering context holds
the address-derived value, not the content-derived one as claimed. -/
theorem C2_counterexample :
    mergedInput contentInput0 senderInput0 "SIGNATURE" = some "from address file" ∧
    contentInput0 "SIGNATURE" = some "from content" ∧
    senderInput0 "SIGNATURE" = some "from address file" ∧
    mergedInput contentInput0 senderInput0 "SIGNATURE" ≠ contentInput0 "SIGNATURE" := by
  refine ⟨rfl, rfl, rfl, ?_⟩
  intro h
  simp [mergedInput, merge, contentInput0, senderInput0] at h

/-- C2 amended: for every key present in both mappings the final rendering
context holds the address-derived (`senderInput`) value — the
content-derived mapping is the base and the address-derived mapping
overrides it; keys absent from the address-derived mapping keep their
content-derived value. -/
theorem C2_merge_address_overrides (contentInput senderInput : String → Option String)
    (k : String) :
    (∀ v, senderInput k = some v → mergedInput contentInput senderInput k = some v) ∧
    (senderInput k = none → mergedInput contentInput senderInput k = contentInput k) := by
  constructor
  · intro v hv
    simp [mergedInput, merge, hv]
  · intro hv
    simp [mergedInput, merge, hv]

/-- Witness for the amended C2 at the concrete mappings `contentInput0`
and `senderInput0`. -/
theorem C2_merge_address_overrides_witness :
    mergedInput contentInput0 senderInput0 "SIGNATURE" = some "from address file" ∧
    mergedInput contentInput0 (fun _ => none) "SIGNATURE" = contentInput0 "SIGNATURE" := by
  exact ⟨(C2_merge_address_overrides contentInput0 senderInput0 "SIGNATURE").1
      "from address file" rfl,
    (C2_merge_address_overrides contentInput0 (fun _ => none) "SIGNATURE").2 rfl⟩

/-! Theorems for the mixed-mode block scanner (claims C1, C5). -/

/-- C1: the claim states the converter is called with the lines strictly
between the markers — on `["plain", ".md--", "# Title", "--", "plain2"]`
with an uppercasing `md` converter it should be called with `["# Title"]`
and yield `"plain\n# TITLE\n\nplain2\n"`.  The code instead converts
`a[i+1 : blockEnd-1]`, dropping the last line before the end marker: the
converter receives `[]` and the overall result is `"plain\n\nplain2\n"`.
The first conjunct checks the oracle really uppercases the block line. -/
theorem C1_block_slice_drops_last_line :
    upperMdConverter "md" ["# Title"] = some "# TITLE" ∧
    convertMarkup upperMdConverter ["plain", ".md--", "# Title", "--", "plain2"] =
      some "plain\n\nplain2\n" ∧
    convertMarkup upperMdConverter ["plain", ".md--", "# Title", "--", "plain2"] ≠
      some "plain\n# TITLE\n\nplain2\n" := by
  refine ⟨by decide, by decide, by decide⟩

/-- C5: the claim states that on an unmatched block-start marker all
remaining lines are appended verbatim exactly once and scanning
terminates, which on `["x", ".md--", "y"]` would yield `"x\n.md--\ny\n"`.
The code appends `a[i:]` but does not advance `i` past the input, so the
scan continues and re-emits every following line: the result is
`"x\n.md--\ny\ny\n"`, with `"y"` duplicated. -/
theorem C5_unmatched_block_end_duplicates :
    convertMarkup upperMdConverter ["x", ".md--", "y"] = some "x\n.md--\ny\ny\n" ∧
    convertMarkup upperMdConverter ["x", ".md--", "y"] ≠ some "x\n.md--\ny\n" := by
  refine ⟨by decide, by decide⟩

/-! Theorems for converter resolution (claim C7). -/

/-- C7: `NewConverter` resolves in the claimed order: an exact registry
entry for the markup type; otherwise the wildcard entry `"*"` with `"%m"`
in its command template replaced by the markup type; otherwise an error
saying no converter is configured for that type. -/
theorem C7_newConverter_resolution (cfg : String → String) (t : String) :
    (cfg t ≠ "" → NewConverter t cfg = .ok ⟨t, cfg t⟩) ∧
    (cfg t = "" → cfg "*" ≠ "" →
      NewConverter t cfg = .ok ⟨t, replaceAll (cfg "*") "%m" t⟩) ∧
    (cfg t = "" → cfg "*" = "" →
      NewConverter t cfg = .error ("No converter configured for markupType " ++ t ++
        ". Consider installing pandoc.")) := by
  refine ⟨fun h => ?_, fun h1 h2 => ?_, fun h1 h2 => ?_⟩
  · simp [NewConverter, h]
  · simp [NewConverter, h1, h2]
  · simp [NewConverter, h1, h2]

/-- Witness for C7 on a small concrete registry: an exact entry, a
wildcard substitution, and the error case. -/
theorem C7_newConverter_resolution_witness :
    NewConverter "md" (fun t => if t = "md" then "cmark" else if t = "*" then "%m -t tex" else "") =
      .ok ⟨"md", "cmark"⟩ ∧
    NewConverter "adoc" (fun t => if t = "md" then "cmark" else if t = "*" then "%m -t tex" else "") =
      .ok ⟨"adoc", "adoc -t tex"⟩ ∧
    NewConverter "adoc" (fun _ => "") =
      .error "No converter configured for markupType adoc. Consider installing pandoc." := by
  refine ⟨(C7_newConverter_resolution _ "md").1 (by decide), ?_, ?_⟩
  · have h := (C7_newConverter_resolution
      (fun t => if t = "md" then "cmark" else if t = "*" then "%m -t tex" else "") "adoc").2.1
      (by decide) (by decide)
    rw [h]
    rfl
  · exact (C7_newConverter_resolution (fun _ => "") "adoc").2.2 rfl rfl

/-! Theorems for the address record parser (claims C8, C10). -/

/-- Blank and comment lines leave the parser state untouched. -/
theorem addrStep_ignorable (st : AddrState) (c : String)
    (h : isIgnorableLine c = true) : addrStep st c = .ok st := by
  simp [addrStep, h]

/-- A run of ignorable lines leaves any parser state untouched. -/
theorem foldlM_addrStep_ignorable :
    ∀ (xs : List String), (∀ l ∈ xs, isIgnorableLine l = true) →
      ∀ st : AddrState, List.foldlM addrStep st xs = .ok st
  | [], _, st => rfl
  | x :: rest, h, st => by
    rw [List.foldlM_cons, addrStep_ignorable st x (h x (by simp))]
    show List.foldlM addrStep st rest = .ok st
    exact foldlM_addrStep_ignorable rest (fun l hl => h l (by simp [hl])) st

/-- Removing one ignorable line anywhere does not change the parse. -/
theorem readFromLines_skip (xs : List String) (c : String) (ys : List String)
    (h : isIgnorableLine c = true) :
    ReadFromLines (xs ++ c :: ys) = ReadFromLines (xs ++ ys) := by
  unfold ReadFromLines
  rw [List.foldlM_append, List.foldlM_append]
  cases hx : List.foldlM addrStep initialAddrState xs with
  | error e => rfl
  | ok s =>
    show (List.foldlM addrStep s (c :: ys)).map AddrState.senderAddresses =
      (List.foldlM addrStep s ys).map AddrState.senderAddresses
    rw [List.foldlM_cons, addrStep_ignorable s c h]
    rfl

/-- A step error after a successfully parsed first part aborts the whole
parse with that error, whatever lines follow. -/
theorem readFromLines_error_after (xs : List String) (line : String) (ys : List String)
    (st : AddrState) (hx : List.foldlM addrStep initialAddrState xs = .ok st)
    (e : String) (he : addrStep st line = .error e) :
    ReadFromLines (xs ++ line :: ys) = .error e := by
  unfold ReadFromLines
  rw [List.foldlM_append, hx]
  show (List.foldlM addrStep st (line :: ys)).map AddrState.senderAddresses = .error e
  rw [List.foldlM_cons, he]
  rfl

/-- A content line with no open record is a format error. -/
theorem addrStep_noRecord (st : AddrState) (line : String)
    (hcur : st.curAddress = none) (hni : isIgnorableLine line = false)
    (hna : goHasPrefixStr (goTrimSpace line) "address:" = false) :
    addrStep st line =
      .error ("Invalid address file. content without address: " ++ line) := by
  simp [addrStep, hni, hna, hcur]

/-- A content line without a colon is a format error. -/
theorem addrStep_noColon (st : AddrState) (id line : String)
    (hcur : st.curAddress = some id) (hni : isIgnorableLine line = false)
    (hna : goHasPrefixStr (goTrimSpace line) "address:" = false)
    (hnc : splitOnceColon (goTrimSpace line).data = none) :
    addrStep st line = .error ("Invalid line in address file: " ++ line) := by
  simp [addrStep, hni, hna, hcur, hnc]

/-- A `key: value` line appends the trimmed value to the trimmed key's
value list of the record under the current id, shadowing the old map
entry. -/
theorem addrStep_keyValue (st : AddrState) (id line : String) (k0 v0 : List Char)
    (hcur : st.curAddress = some id) (hni : isIgnorableLine line = false)
    (hna : goHasPrefixStr (goTrimSpace line) "address:" = false)
    (hsp : splitOnceColon (goTrimSpace line).data = some (k0, v0)) :
    addrStep st line = .ok
      ⟨(id, ⟨(goTrimSpace ⟨k0⟩,
          (((((st.senderAddresses.lookup id).map Address.Fields).getD []).lookup
            (goTrimSpace ⟨k0⟩)).getD []) ++ [goTrimSpace ⟨v0⟩]) ::
          (((st.senderAddresses.lookup id).map Address.Fields).getD [])⟩) ::
        st.senderAddresses, some id⟩ := by
  simp [addrStep, hni, hna, hcur, hsp]

/-- C8: the address parser ignores blank and `#`-comment lines anywhere; a
content line before any `address:` line aborts the whole parse with a
format error (in particular every `key: value` line does); a non-ignorable
non-address line without a colon likewise aborts with a format error; and
a repeated key within the open record appends to that field's value list
in input order instead of overwriting. -/
theorem C8_addressParser_contract :
    (∀ xs c ys, isIgnorableLine c = true →
      ReadFromLines (xs ++ c :: ys) = ReadFromLines (xs ++ ys)) ∧
    (∀ xs line ys, (∀ l ∈ xs, isIgnorableLine l = true) →
      isIgnorableLine line = false →
      goHasPrefixStr (goTrimSpace line) "address:" = false →
      ReadFromLines (xs ++ line :: ys) =
        .error ("Invalid address file. content without address: " ++ line)) ∧
    (∀ xs line ys st, List.foldlM addrStep initialAddrState xs = .ok st →
      isIgnorableLine line = false →
      goHasPrefixStr (goTrimSpace line) "address:" = false →
      splitOnceColon (goTrimSpace line).data = none →
      ∃ e, ReadFromLines (xs ++ line :: ys) = .error e) ∧
    (∀ st id line k0 v0, st.curAddress = some id →
      isIgnorableLine line = false →
      goHasPrefixStr (goTrimSpace line) "address:" = false →
      splitOnceColon (goTrimSpace line).data = some (k0, v0) →
      ∃ st2, addrStep st line = .ok st2 ∧ st2.curAddress = some id ∧
        (((st2.senderAddresses.lookup id).map Address.Fields).getD []).lookup
            (goTrimSpace ⟨k0⟩) =
          some ((((((st.senderAddresses.lookup id).map Address.Fields).getD []).lookup
            (goTrimSpace ⟨k0⟩)).getD []) ++ [goTrimSpace ⟨v0⟩])) := by
  refine ⟨readFromLines_skip, ?_, ?_, ?_⟩
  · intro xs line ys hxs hni hna
    exact readFromLines_error_after xs line ys initialAddrState
      (foldlM_addrStep_ignorable xs hxs initialAddrState) _
      (addrStep_noRecord initialAddrState line rfl hni hna)
  · intro xs line ys st hx hni hna hnc
    cases hcur : st.curAddress with
    | none =>
      exact ⟨_, readFromLines_error_after xs line ys st hx _
        (addrStep_noRecord st line hcur hni hna)⟩
    | some id =>
      exact ⟨_, readFromLines_error_after xs line ys st hx _
        (addrStep_noColon st id line hcur hni hna hnc)⟩
  · intro st id line k0 v0 hcur hni hna hsp
    refine ⟨_, addrStep_keyValue st id line k0 v0 hcur hni hna hsp, rfl, ?_⟩
    simp [List.lookup]

/-- Witness for C8: skipping a comment line, the error on a `key: value`
line before any `address:` line, the error on a colon-less line, and the
append on a repeated key, all at concrete inputs. -/
theorem C8_addressParser_contract_witness :
    ReadFromLines ["address: a", "  # note", "k: v"] = ReadFromLines ["address: a", "k: v"] ∧
    ReadFromLines ["# only a comment", "k: v"] =
      .error ("Invalid address file. content without address: " ++ "k: v") ∧
    (∃ e, ReadFromLines ["address: a", "no colon here"] = .error e) ∧
    (∃ st2, addrStep ⟨[("a", ⟨[("k", ["v1"])]⟩)], some "a"⟩ "k: v2" = .ok st2 ∧
      st2.curAddress = some "a" ∧
      (((st2.senderAddresses.lookup "a").map Address.Fields).getD []).lookup "k" =
        some ["v1", "v2"]) := by
  refine ⟨?_, ?_, ?_, ?_⟩
  · exact C8_addressParser_contract.1 ["address: a"] "  # note" ["k: v"] (by decide)
  · exact C8_addressParser_contract.2.1 ["# only a comment"] "k: v" []
      (by decide) (by decide) (by decide)
  · exact C8_addressParser_contract.2.2.1 ["address: a"] "no colon here" []
      ⟨[("a", ⟨[]⟩)], some "a"⟩ rfl (by decide) (by decide) rfl
  · exact C8_addressParser_contract.2.2.2 ⟨[("a", ⟨[("k", ["v1"])]⟩)], some "a"⟩
      "a" "k: v2" "k".data " v2".data rfl (by decide) (by decide) rfl

/-- C10: a later `address:` line with an already-used id replaces the
earlier record under that id with a fresh empty one (the map entry for
every other id is untouched), subsequent `key: value` lines touch only the
record under the current id, and on a concrete duplicated-id file the
returned mapping holds only the later record's fields under that id. -/
theorem C10_address_open_last_wins :
    (∀ (st : AddrState) (rawLine id : String),
      isIgnorableLine rawLine = false →
      goHasPrefixStr (goTrimSpace rawLine) "address:" = true →
      goTrimSpace ⟨(goTrimSpace rawLine).data.drop 8⟩ = id →
      addrStep st rawLine = .ok ⟨(id, ⟨[]⟩) :: st.senderAddresses, some id⟩ ∧
      ((id, (⟨[]⟩ : Address)) :: st.senderAddresses).lookup id = some ⟨[]⟩ ∧
      (∀ id2, (id2 == id) = false →
        ((id, (⟨[]⟩ : Address)) :: st.senderAddresses).lookup id2 =
          st.senderAddresses.lookup id2)) ∧
    (∀ (st : AddrState) (id line : String) (k0 v0 : List Char),
      st.curAddress = some id →
      isIgnorableLine line = false →
      goHasPrefixStr (goTrimSpace line) "address:" = false →
      splitOnceColon (goTrimSpace line).data = some (k0, v0) →
      ∃ st2, addrStep st line = .ok st2 ∧ st2.curAddress = some id ∧
        (∀ id2, (id2 == id) = false →
          st2.senderAddresses.lookup id2 = st.senderAddresses.lookup id2)) ∧
    ReadFromLines ["address: dup", "k: v1", "address: dup", "k: v2"] =
      .ok [("dup", ⟨[("k", ["v2"])]⟩), ("dup", ⟨[]⟩),
           ("dup", ⟨[("k", ["v1"])]⟩), ("dup", ⟨[]⟩)] ∧
    ([("dup", (⟨[("k", ["v2"])]⟩ : Address)), ("dup", ⟨[]⟩),
      ("dup", ⟨[("k", ["v1"])]⟩), ("dup", ⟨[]⟩)].lookup "dup" =
      some ⟨[("k", ["v2"])]⟩) := by
  refine ⟨?_, ?_, ?_, ?_⟩
  · intro st rawLine id hni hpre hid
    refine ⟨?_, ?_, ?_⟩
    · simp [addrStep, hni, hpre, hid]
    · simp [List.lookup]
    · intro id2 h2
      simp [List.lookup, h2]
  · intro st id line k0 v0 hcur hni hna hsp
    refine ⟨_, addrStep_keyValue st id line k0 v0 hcur hni hna hsp, rfl, ?_⟩
    intro id2 h2
    simp [List.lookup, h2]
  · rfl
  · rfl

/-- Witness for C10: reopening `dup` replaces its record by a fresh empty
one and leaves every other id alone; a `key: value` step touches no other
id. -/
theorem C10_address_open_last_wins_witness :
    addrStep ⟨[("dup", ⟨[("k", ["v1"])]⟩)], some "dup"⟩ "address: dup" =
      .ok ⟨[("dup", ⟨[]⟩), ("dup", ⟨[("k", ["v1"])]⟩)], some "dup"⟩ ∧
    (∃ st2, addrStep ⟨[("dup", ⟨[]⟩), ("other", ⟨[]⟩)], some "dup"⟩ "k: v2" = .ok st2 ∧
      st2.curAddress = some "dup" ∧
      (∀ id2, (id2 == "dup") = false →
        st2.senderAddresses.lookup id2 =
          [("dup", (⟨[]⟩ : Address)), ("other", ⟨[]⟩)].lookup id2)) := by
  constructor
  · exact (C10_address_open_last_wins.1 ⟨[("dup", ⟨[("k", ["v1"])]⟩)], some "dup"⟩
      "address: dup" "dup" (by decide) (by decide) (by decide)).1
  · exact C10_address_open_last_wins.2.1 ⟨[("dup", ⟨[]⟩), ("other", ⟨[]⟩)], some "dup"⟩
      "dup" "k: v2" "k".data " v2".data rfl (by decide) (by decide) rfl

/-! Theorems for the section splitter (claim C6). -/

/-- A marker index is inside the line list. -/
theorem markerName_isSome_lt {lines : List String} {b : Nat}
    (h : (markerName lines b).isSome) : b < lines.length := by
  unfold markerName at h
  cases hl : lines[b]? with
  | none => rw [hl] at h; simp at h
  | some l => exact (List.getElem?_eq_some.mp hl).1

/-- The forward scan finds `b` when no marker lies in between. -/
theorem nextMarkerFrom_eq_of {lines : List String} {b : Nat} :
    ∀ (fuel i : Nat), b - i < fuel → i ≤ b →
      (∀ j, i ≤ j → j < b → markerName lines j = none) →
      (markerName lines b).isSome = true →
      nextMarkerFrom lines fuel i = b
  | 0, i, hf, hib, _, _ => by omega
  | fuel + 1, i, hf, hib, hnone, hb => by
    have hblen : b < lines.length := markerName_isSome_lt hb
    by_cases hi : i = b
    · subst hi
      simp [nextMarkerFrom, (by omega : i < lines.length), hb]
    · have hmi : markerName lines i = none := hnone i (le_refl i) (by omega)
      simp [nextMarkerFrom, (by omega : i < lines.length), hmi]
      exact nextMarkerFrom_eq_of fuel (i + 1) (by omega) (by omega)
        (fun j h1 h2 => hnone j (by omega) h2) hb

/-- The forward scan returns the length when no marker remains. -/
theorem nextMarkerFrom_eq_length {lines : List String} :
    ∀ (fuel i : Nat), lines.length - i < fuel →
      (∀ j, i ≤ j → j < lines.length → markerName lines j = none) →
      nextMarkerFrom lines fuel i = lines.length
  | 0, i, hf, _ => by omega
  | fuel + 1, i, hf, hnone => by
    by_cases hi : i < lines.length
    · have hmi : markerName lines i = none := hnone i (le_refl i) hi
      simp [nextMarkerFrom, hi, hmi]
      exact nextMarkerFrom_eq_length fuel (i + 1) (by omega)
        (fun j h1 h2 => hnone j (by omega) h2)
    · simp [nextMarkerFrom, hi]

/-- The forward scan never passes a marker. -/
theorem nextMarkerFrom_le {lines : List String} {b : Nat} :
    ∀ (fuel i : Nat), b - i < fuel → i ≤ b →
      (markerName lines b).isSome = true →
      nextMarkerFrom lines fuel i ≤ b
  | 0, i, hf, hib, _ => by omega
  | fuel + 1, i, hf, hib, hb => by
    have hblen : b < lines.length := markerName_isSome_lt hb
    have hilen : i < lines.length := by omega
    cases hmi : (markerName lines i).isSome with
    | true => simp [nextMarkerFrom, hilen, hmi]; omega
    | false =>
      by_cases hi : i = b
      · rw [hi] at hmi
        rw [hb] at hmi
        simp at hmi
      · simp [nextMarkerFrom, hilen, hmi]
        exact nextMarkerFrom_le fuel (i + 1) (by omega) (by omega) hb

/-- The backward scan finds `s` when `s` is a marker named `k` and no
marker lies between `s` and the bound. -/
theorem lastOccBefore_eq_some {lines : List String} {k : String} {s : Nat}
    (hs : markerName lines s = some k) :
    ∀ n, s < n → (∀ j, s < j → j < n → markerName lines j = none) →
      lastOccBefore lines k n = some s
  | 0, h, _ => by omega
  | n + 1, h, hnone => by
    by_cases hn : n = s
    · subst hn; simp [lastOccBefore, hs]
    · have hmn : markerName lines n = none := hnone n (by omega) (by omega)
      simp [lastOccBefore, hmn]
      exact lastOccBefore_eq_some hs n (by omega) (fun j h1 h2 => hnone j h1 (by omega))

/-- The backward scan finds nothing when no line below the bound is a
marker named `k`. -/
theorem lastOccBefore_eq_none {lines : List String} {k : String} :
    ∀ n, (∀ j, j < n → markerName lines j ≠ some k) →
      lastOccBefore lines k n = none
  | 0, _ => rfl
  | n + 1, h => by
    simp [lastOccBefore, h n (by omega)]
    exact lastOccBefore_eq_none n (fun j hj => h j (by omega))

/-- The backward scan skips a top segment free of markers named `k`. -/
theorem lastOccBefore_congr {lines : List String} {k : String} {s : Nat} :
    ∀ n, s ≤ n → (∀ j, s ≤ j → j < n → markerName lines j ≠ some k) →
      lastOccBefore lines k n = lastOccBefore lines k s
  | 0, h, _ => by
    have hz : s = 0 := by omega
    rw [hz]
  | n + 1, h, hnone => by
    by_cases hn : s = n + 1
    · rw [hn]
    · have hne : markerName lines n ≠ some k := hnone n (by omega) (by omega)
      simp [lastOccBefore, hne]
      exact lastOccBefore_congr n (by omega) (fun j h1 h2 => hnone j h1 (by omega))

/-- A successful backward scan points at a marker named `k` below the
bound. -/
theorem lastOccBefore_spec {lines : List String} {k : String} :
    ∀ {n j}, lastOccBefore lines k n = some j →
      markerName lines j = some k ∧ j < n := by
  intro n
  induction n with
  | zero => intro j h; simp [lastOccBefore] at h
  | succ n ih =>
    intro j h
    by_cases hn : markerName lines n = some k
    · simp [lastOccBefore, hn] at h
      subst h
      exact ⟨hn, by omega⟩
    · simp [lastOccBefore, hn] at h
      obtain ⟨h1, h2⟩ := ih h
      exact ⟨h1, by omega⟩

/-- The `CreateBrf` scan preserves the invariant up to the end of the
input. -/
theorem createBrfLoop_inv (all : List String) :
    ∀ (rest : List String) (idx : Nat) (st : BrfState),
      all.drop idx = rest → InvBrf all idx st →
      InvBrf all all.length (createBrfLoop all idx rest st)
  | [], idx, ⟨secs, cur⟩, hdrop, hinv => by
    have hlen : all.length ≤ idx := List.drop_eq_nil_iff.mp hdrop
    cases cur with
    | none =>
      have h : InvNone all idx secs := hinv
      show InvNone all all.length secs
      exact ⟨h.1, fun j hj => h.2 j (by omega)⟩
    | some p =>
      obtain ⟨name, start⟩ := p
      have h : InvSome all idx secs name start := hinv
      show InvSome all all.length secs name start
      have hstart : start < all.length := markerName_isSome_lt (by simp [h.1])
      exact ⟨h.1, hstart, fun j h1 h2 => h.2.2.1 j h1 (by omega), h.2.2.2⟩
  | line :: rest, idx, ⟨secs, cur⟩, hdrop, hinv => by
    have hline : all[idx]? = some line := by
      have h0 := List.getElem?_drop all idx 0
      rw [hdrop] at h0
      simpa using h0.symm
    have hidxlen : idx < all.length := (List.getElem?_eq_some.mp hline).1
    have hdrop2 : all.drop (idx + 1) = rest := by
      have hdd : all.drop (idx + 1) = (all.drop idx).drop 1 := by
        rw [List.drop_drop, Nat.add_comm]
      rw [hdd, hdrop]
      rfl
    have hmidx : markerName all idx = matchSectionId line := by
      unfold markerName
      rw [hline]
      rfl
    cases hm : matchSectionId line with
    | none =>
      have hmn : markerName all idx = none := by rw [hmidx, hm]
      have hstep : createBrfLoop all idx (line :: rest) ⟨secs, cur⟩ =
          createBrfLoop all (idx + 1) rest ⟨secs, cur⟩ := by
        simp [createBrfLoop, hm]
      rw [hstep]
      apply createBrfLoop_inv all rest (idx + 1) ⟨secs, cur⟩ hdrop2
      cases cur with
      | none =>
        have h : InvNone all idx secs := hinv
        show InvNone all (idx + 1) secs
        refine ⟨h.1, fun j hj => ?_⟩
        by_cases hji : j = idx
        · rw [hji]; exact hmn
        · exact h.2 j (by omega)
      | some p =>
        obtain ⟨name, start⟩ := p
        have h : InvSome all idx secs name start := hinv
        have hs := h.2.1
        show InvSome all (idx + 1) secs name start
        refine ⟨h.1, by omega, fun j h1 h2 => ?_, h.2.2.2⟩
        by_cases hji : j = idx
        · rw [hji]; exact hmn
        · exact h.2.2.1 j h1 (by omega)
    | some name =>
      have hms : markerName all idx = some name := by rw [hmidx, hm]
      cases cur with
      | none =>
        have h : InvNone all idx secs := hinv
        have hstep : createBrfLoop all idx (line :: rest) ⟨secs, none⟩ =
            createBrfLoop all (idx + 1) rest ⟨secs, some (name, idx)⟩ := by
          simp [createBrfLoop, hm]
        rw [hstep]
        apply createBrfLoop_inv all rest (idx + 1) _ hdrop2
        show InvSome all (idx + 1) secs name idx
        refine ⟨hms, by omega, fun j h1 h2 => by omega, fun k => ?_⟩
        have hnone : lastOccBefore all k idx = none :=
          lastOccBefore_eq_none idx (fun j hj => by rw [h.2 j hj]; simp)
        rw [h.1, hnone]
        rfl
      | some p =>
        obtain ⟨cs, start⟩ := p
        have h : InvSome all idx secs cs start := hinv
        have hstart := h.2.1
        have hstep : createBrfLoop all idx (line :: rest) ⟨secs, some (cs, start)⟩ =
            createBrfLoop all (idx + 1) rest
              ⟨(cs, sliceLines all (start + 1) idx) :: secs, some (name, idx)⟩ := by
          simp [createBrfLoop, hm]
        rw [hstep]
        apply createBrfLoop_inv all rest (idx + 1) _ hdrop2
        show InvSome all (idx + 1) ((cs, sliceLines all (start + 1) idx) :: secs) name idx
        refine ⟨hms, by omega, fun j h1 h2 => by omega, fun k => ?_⟩
        by_cases hk : k = cs
        · subst hk
          have hlk : ((k, sliceLines all (start + 1) idx) :: secs).lookup k =
              some (sliceLines all (start + 1) idx) := by
            simp [List.lookup]
          rw [hlk]
          have hlast : lastOccBefore all k idx = some start :=
            lastOccBefore_eq_some h.1 idx hstart (fun j h1 h2 => h.2.2.1 j h1 h2)
          rw [hlast]
          have hnm : nextMarker all start = idx := by
            unfold nextMarker
            exact nextMarkerFrom_eq_of (all.length + 1) (start + 1) (by omega) (by omega)
              (fun j h1 h2 => h.2.2.1 j (by omega) h2) (by simp [hms])
          simp only [Option.map_some']
          rw [hnm]
        · have hbeq : (k == cs) = false := beq_eq_false_iff_ne.mpr hk
          have hlk : ((cs, sliceLines all (start + 1) idx) :: secs).lookup k =
              secs.lookup k := by
            simp [List.lookup, hbeq]
          rw [hlk, h.2.2.2 k]
          have hcongr : lastOccBefore all k idx = lastOccBefore all k start := by
            apply lastOccBefore_congr idx (by omega)
            intro j h1 h2
            by_cases hjs : j = start
            · rw [hjs, h.1]
              simp
              exact fun hh => hk hh.symm
            · rw [h.2.2.1 j (by omega) h2]
              simp
          rw [hcongr]

/-- C6: `CreateBrf` returns exactly the mapping whose keys are the names of
section-marker lines, each name bound to the lines strictly after its
latest marker up to the next marker or the end of the input (so a repeated
name keeps only its last range); a marker-free input yields the empty
mapping; and the ranges of two distinct names never overlap. -/
theorem C6_createBrf_characterization (lines : List String) :
    (∀ k, (CreateBrf lines).lookup k =
      (lastOcc lines k).map (fun j => sliceLines lines (j + 1) (nextMarker lines j))) ∧
    ((∀ l ∈ lines, matchSectionId l = none) → CreateBrf lines = []) ∧
    (∀ k1 k2 j1 j2, k1 ≠ k2 →
      lastOcc lines k1 = some j1 → lastOcc lines k2 = some j2 →
      nextMarker lines j1 ≤ j2 ∨ nextMarker lines j2 ≤ j1) := by
  have hinv0 : InvBrf lines 0 (⟨[], none⟩ : BrfState) :=
    (⟨rfl, fun j hj => by omega⟩ : InvNone lines 0 [])
  have hinv := createBrfLoop_inv lines lines 0 ⟨[], none⟩ (by simp) hinv0
  refine ⟨?_, ?_, ?_⟩
  · intro k
    cases hst : createBrfLoop lines 0 lines ⟨[], none⟩ with
    | mk secs cur =>
      rw [hst] at hinv
      cases cur with
      | none =>
        have h : InvNone lines lines.length secs := hinv
        have hC : CreateBrf lines = secs := by
          unfold CreateBrf
          rw [hst]
        have hlast : lastOcc lines k = none :=
          lastOccBefore_eq_none lines.length (fun j hj => by rw [h.2 j hj]; simp)
        unfold lastOcc at hlast
        rw [hC, h.1, lastOcc, hlast]
        rfl
      | some p =>
        obtain ⟨cs, start⟩ := p
        have h : InvSome lines lines.length secs cs start := hinv
        have hstart := h.2.1
        have hC : CreateBrf lines = (cs, lines.drop (start + 1)) :: secs := by
          unfold CreateBrf
          rw [hst]
        rw [hC]
        by_cases hk : k = cs
        · subst hk
          have hlk : ((k, lines.drop (start + 1)) :: secs).lookup k =
              some (lines.drop (start + 1)) := by
            simp [List.lookup]
          rw [hlk]
          have hlast : lastOcc lines k = some start :=
            lastOccBefore_eq_some h.1 lines.length hstart
              (fun j h1 h2 => h.2.2.1 j h1 h2)
          rw [hlast]
          simp only [Option.map_some']
          have hnm : nextMarker lines start = lines.length := by
            unfold nextMarker
            exact nextMarkerFrom_eq_length (lines.length + 1) (start + 1) (by omega)
              (fun j h1 h2 => h.2.2.1 j (by omega) h2)
          rw [hnm]
          have hsl : sliceLines lines (start + 1) lines.length =
              lines.drop (start + 1) := by
            unfold sliceLines
            rw [← List.length_drop]
            exact List.take_length _
          rw [hsl]
        · have hbeq : (k == cs) = false := beq_eq_false_iff_ne.mpr hk
          have hlk : ((cs, lines.drop (start + 1)) :: secs).lookup k =
              secs.lookup k := by
            simp [List.lookup, hbeq]
          rw [hlk, h.2.2.2 k]
          have hcongr : lastOcc lines k = lastOccBefore lines k start := by
            unfold lastOcc
            apply lastOccBefore_congr lines.length (by omega)
            intro j h1 h2
            by_cases hjs : j = start
            · rw [hjs, h.1]
              simp
              exact fun hh => hk hh.symm
            · rw [h.2.2.1 j (by omega) h2]
              simp
          rw [hcongr]
  · intro hall
    have hmn : ∀ j, markerName lines j = none := by
      intro j
      unfold markerName
      cases hl : lines[j]? with
      | none => rfl
      | some l =>
        obtain ⟨hlt, hget⟩ := List.getElem?_eq_some.mp hl
        have hmem : l ∈ lines := by
          have := List.getElem_mem hlt
          rw [hget] at this
          exact this
        simp [hall l hmem]
    cases hst : createBrfLoop lines 0 lines ⟨[], none⟩ with
    | mk secs cur =>
      rw [hst] at hinv
      cases cur with
      | none =>
        have h : InvNone lines lines.length secs := hinv
        have hC : CreateBrf lines = secs := by
          unfold CreateBrf
          rw [hst]
        rw [hC]
        exact h.1
      | some p =>
        obtain ⟨cs, start⟩ := p
        have h : InvSome lines lines.length secs cs start := hinv
        have h1 := h.1
        rw [hmn start] at h1
        exact absurd h1 (by simp)
  · intro k1 k2 j1 j2 hne h1 h2
    obtain ⟨hm1, hlt1⟩ := lastOccBefore_spec
      (show lastOccBefore lines k1 lines.length = some j1 from h1)
    obtain ⟨hm2, hlt2⟩ := lastOccBefore_spec
      (show lastOccBefore lines k2 lines.length = some j2 from h2)
    have hs1 : (markerName lines j1).isSome = true := by simp [hm1]
    have hs2 : (markerName lines j2).isSome = true := by simp [hm2]
    have hl1 : j1 < lines.length := markerName_isSome_lt hs1
    have hl2 : j2 < lines.length := markerName_isSome_lt hs2
    have hjne : j1 ≠ j2 := by
      intro hj
      rw [hj, hm2] at hm1
      exact hne (Option.some.inj hm1).symm
    by_cases hlt : j1 < j2
    · left
      unfold nextMarker
      exact nextMarkerFrom_le (lines.length + 1) (j1 + 1) (by omega) (by omega) hs2
    · right
      unfold nextMarker
      exact nextMarkerFrom_le (lines.length + 1) (j2 + 1) (by omega) (by omega) hs1

/-- Witness for C6 at the concrete input
`[".A", "a1", ".B", "b1", ".A", "a2"]` (a duplicated `.A` marker) and at a
marker-free input. -/
theorem C6_createBrf_characterization_witness :
    (CreateBrf [".A", "a1", ".B", "b1", ".A", "a2"]).lookup "A" =
      (lastOcc [".A", "a1", ".B", "b1", ".A", "a2"] "A").map
        (fun j => sliceLines [".A", "a1", ".B", "b1", ".A", "a2"] (j + 1)
          (nextMarker [".A", "a1", ".B", "b1", ".A", "a2"] j)) ∧
    CreateBrf ["no", "markers here"] = [] ∧
    (nextMarker [".A", "a1", ".B", "b1", ".A", "a2"] 4 ≤ 2 ∨
      nextMarker [".A", "a1", ".B", "b1", ".A", "a2"] 2 ≤ 4) := by
  refine ⟨(C6_createBrf_characterization [".A", "a1", ".B", "b1", ".A", "a2"]).1 "A",
    (C6_createBrf_characterization ["no", "markers here"]).2.1 (by decide),
    (C6_createBrf_characterization [".A", "a1", ".B", "b1", ".A", "a2"]).2.2
      "A" "B" 4 2 (by decide) (by decide) (by decide)⟩

end Brief
